import Mathlib

/-!
# SJTAgent generation orchestration layer — shallow embedding

This file embeds the orchestration core of the SJTAgent repository and
settles the frozen claims about it:

* quality control and the bounded refinement loop
  (`src/workflow/quality_control.py`, `src/workflow/all_in_one.py`,
  `src/workflow/graph_builder.py`);
* the per-item cue fan-out (`SJTAgent._generate_items` in
  `src/workflow/main.py`);
* the batch scheduler (`SJTRunner._cook_async` in `src/run.py`) and the
  result flattening (`SJTRunner.save_result`).

Modelling conventions: Python floats are modelled by `ℚ` (all quantities
involved are ratios of small integers); a Python `dict.get` with a default
becomes a total field with that default or an `Option`; an exception-raising
computation becomes `Except`/`Option`; the single-threaded asyncio event
loop is modelled by explicit completion orders (permutations of the task
index list) and, for semaphores, by explicit admission traces.
-/

/-- A behavioral option as parsed from the collaborator's JSON.  The code
reads fields with `o.get(...)`, which yields `None` when a key is absent,
hence `Option String`. -/
structure OptionRec where
  action : Option String
  rationale : Option String
  trait_level : Option String
deriving DecidableEq, Repr

/-- Python `str.lower()` restricted to the ASCII case mapping (the strings
compared against are the ASCII literals "high"/"mid"/"low"). -/
def pyLower (s : String) : String := ⟨s.data.map Char.toLower⟩

/-- Python `c in s` (substring test) on strings. -/
def substrOf (c s : String) : Bool := decide (c.data <:+: s.data)

/-- `json.dumps({"a": o.get("action"), "r": o.get("rationale")},
ensure_ascii=False)` from `_distinct_ratio`: the serialization is injective
in the (action, rationale) pair and equal texts correspond to equal pairs,
so the serialized text is modelled by the pair itself. -/
def optionText (o : OptionRec) : Option String × Option String :=
  (o.action, o.rationale)

/-- `quality_control._distinct_ratio`: `0.0` when there are no options,
otherwise the number of distinct serialized (action, rationale) texts
divided by `max 1 (number of texts)`. -/
def distinct_ratio (options : List OptionRec) : ℚ :=
  if options = [] then 0
  else
    let texts := options.map optionText
    (texts.dedup.length : ℚ) / (max 1 texts.length : ℚ)

/-- `quality_control._level_coverage`: the set of lowercased `trait_level`
tags (missing tags read as "?") intersected with {"high","mid","low"},
divided by 3.  `List.dedup` plays the role of the Python set; the filter
length is the intersection cardinality. -/
def level_coverage (options : List OptionRec) : ℚ :=
  let levels := (options.map (fun o => pyLower (o.trait_level.getD "?"))).dedup
  let want := ["high", "mid", "low"]
  ((levels.filter (fun l => decide (l ∈ want))).length : ℚ) / 3

/-- The inner sum of `quality_check_node`: the number of cues `c` in the cue
set (`set(...)` of the outline's cue list, modelled by `dedup`) with `c`
nonempty and `c` a substring of `json.dumps(o)`.  The serialization of the
whole option dict is abstracted by the `serialize` parameter. -/
def cueHitsOf (serialize : OptionRec → String) (cues : List String)
    (o : OptionRec) : Nat :=
  (cues.dedup.filter (fun c => (c != "") && substrOf c (serialize o))).length

/-- `cue_hit` after the loop in `quality_check_node`: the summed hit counts
divided by `max 1 (number of options)`. -/
def avg_cue_hits (serialize : OptionRec → String) (cues : List String)
    (options : List OptionRec) : ℚ :=
  ((options.map (fun o => (cueHitsOf serialize cues o : ℚ))).sum) /
    (max 1 options.length : ℚ)

/-- `ok = (distinct >= 0.9) and (coverage >= 0.67) and (cue_hit >= 1.0)` from
`quality_check_node`. -/
def quality_pass (serialize : OptionRec → String) (cues : List String)
    (options : List OptionRec) : Bool :=
  decide (distinct_ratio options ≥ 9/10) &&
    decide (level_coverage options ≥ 67/100) &&
    decide (avg_cue_hits serialize cues options ≥ 1)

/-- The `state["quality"]` dict written by `quality_check_node`.  The code
stores copies of the metrics rounded to 3 decimals for display; the raw
values are kept here since `ok` and every later read of `pass` use the
unrounded computation. -/
structure QualityM where
  distinct : ℚ
  coverage : ℚ
  avg_cue_mentions : ℚ
  pass : Bool
deriving DecidableEq, Repr

/-- The slice of `PSJTState` read and written by the quality/revise loop.
`state.get("iter", 0)` defaults a missing counter to 0, so `iter` is a `Nat`
that callers start at 0; a missing `quality` dict is `none`;
`situation_cues` is `state["situation_outline"]["cues"]`. -/
structure PSJTState where
  situation_cues : List String
  scenario_text : String
  options : List OptionRec
  quality : Option QualityM
  revise_notes : String
  iter : Nat
deriving DecidableEq, Repr

/-- `quality_control.quality_check_node`: computes the three metrics from
`state["options"]` and the outline's cue set, stores them with the pass
flag, and sets `revise_notes` to "" on pass or to the joined deficiency
tags otherwise (the `or`-fallback string covers the empty-tag case). -/
def quality_check_node (serialize : OptionRec → String) (s : PSJTState) :
    PSJTState :=
  let distinct := distinct_ratio s.options
  let coverage := level_coverage s.options
  let cue_hit := avg_cue_hits serialize s.situation_cues s.options
  let ok := quality_pass serialize s.situation_cues s.options
  let lacks :=
    (if distinct < 9/10 then ["选项语义重复/差异不足"] else []) ++
    (if coverage < 67/100 then ["未覆盖 high/mid/low 全部水平"] else []) ++
    (if cue_hit < 1 then ["选项与情境线索耦合不足"] else [])
  { s with
    quality := some ⟨distinct, coverage, cue_hit, ok⟩,
    revise_notes :=
      if ok then ""
      else if lacks = [] then "请加强区分度、覆盖度与情境耦合。"
      else String.intercalate "；" lacks }

/-- `quality_control.should_revise`: "stop" once `iter` reaches 2, else
"revise" when the stored quality did not pass (a missing quality dict reads
as not passing), else "stop". -/
def should_revise (s : PSJTState) : String :=
  if s.iter ≥ 2 then "stop"
  else if !((s.quality.map QualityM.pass).getD false) then "revise"
  else "stop"

/-- The JSON object returned by the revision collaborator call:
`data.get("scenario_text")` and `data.get("options")`, each possibly
absent. -/
structure ReviseOut where
  scenario_text : Option String
  options : Option (List OptionRec)

/-- `quality_control.revise_node`: replaces `scenario_text`/`options` only
when the collaborator returned truthy values (Python truthiness: a present
but empty string or empty list is not stored), and increments `iter` by
exactly 1.  The collaborator call is abstracted by `out`. -/
def revise_node (out : ReviseOut) (s : PSJTState) : PSJTState :=
  { s with
    scenario_text :=
      match out.scenario_text with
      | some t => if t ≠ "" then t else s.scenario_text
      | none => s.scenario_text,
    options :=
      match out.options with
      | some os => if os ≠ [] then os else s.options
      | none => s.options,
    iter := s.iter + 1 }

/-- `all_in_one.behavior_adaptation_node`: overwrites `state["options"]`
with the collaborator's freshly drafted list (`data.get("options", [])`);
the collaborator output is abstracted by `opts`. -/
def behavior_adaptation_node (opts : List OptionRec) (s : PSJTState) :
    PSJTState :=
  { s with options := opts }

/-- `graph_builder.pack_item`, restricted to the fields the claims are
about: the terminal packaging of the final state. -/
structure PackedItem where
  scenario_text : String
  options : List OptionRec
  quality : Option QualityM
  iterations : Nat
deriving DecidableEq, Repr

def pack_item (s : PSJTState) : PackedItem :=
  ⟨s.scenario_text, s.options, s.quality, s.iter⟩

/-- The cyclic part of `graph_builder.build_graph`:
`behavior_adaptation → quality_check → (should_revise) → revise →
behavior_adaptation`, reaching END when `should_revise` returns "stop".
`baOut k` and `revOut k` are the collaborator outputs at the k-th visit of
the respective node.  Returns the final state together with the number of
times the revise node ran. -/
def runRefine (serialize : OptionRec → String)
    (baOut : Nat → List OptionRec) (revOut : Nat → ReviseOut)
    (k : Nat) (s : PSJTState) : PSJTState × Nat :=
  if h : should_revise
      (quality_check_node serialize (behavior_adaptation_node (baOut k) s)) =
      "revise" then
    let r := runRefine serialize baOut revOut (k + 1)
      (revise_node (revOut k)
        (quality_check_node serialize (behavior_adaptation_node (baOut k) s)))
    (r.1, r.2 + 1)
  else (quality_check_node serialize (behavior_adaptation_node (baOut k) s), 0)
termination_by 2 - s.iter
decreasing_by
  have h2 : (quality_check_node serialize
      (behavior_adaptation_node (baOut k) s)).iter < 2 := by
    by_contra hc
    push_neg at hc
    unfold should_revise at h
    rw [if_pos hc] at h
    exact absurd h (by decide)
  have h3 : s.iter < 2 := h2
  show 2 - (s.iter + 1) < 2 - s.iter
  omega

/-- The formula as worded by the spec: the number of pairwise-distinct
(action, rationale) texts divided by the total option count, and 0 when
there are no options. -/
def distinct_ratio_spec (options : List OptionRec) : ℚ :=
  if options.length = 0 then 0
  else ((options.map optionText).dedup.length : ℚ) / (options.length : ℚ)

/-! ## Cue fan-out (`SJTAgent._generate_items`, src/workflow/main.py) -/

/-- The dict built by `process_cue` for one cue: on success
`{"situation": ..., "options": ...}`, on a caught exception
`{"error": ..., "cue": ...}` — a tagged union by construction. -/
inductive CueResult where
  | success (situation : String) (options : List OptionRec)
  | failure (error : String) (cue : String)
deriving DecidableEq, Repr

/-- `process_cue`: the two collaborator round trips (scenario_builder_b then
behavior_adapter) for one cue either produce a situation with options or
raise; the `try/except` converts any exception into the error record and
the function itself never raises.  The pipeline body is abstracted by
`pipeline`. -/
def process_cue
    (pipeline : String → Except String (String × List OptionRec))
    (cue : String) : CueResult :=
  match pipeline cue with
  | .ok (situ, opts) => .success situ opts
  | .error e => .failure e cue

/-- The `results` list assembled by `_generate_items` (lines 130–143):
`asyncio.as_completed(tasks)` yields the cue tasks in completion order and
the loop appends each awaited result, so a result's position is its
completion rank.  `order` lists the indices into `cue_list` in completion
order. -/
def assembleResults
    (pipeline : String → Except String (String × List OptionRec))
    (cue_list : List String) (order : List Nat) : List CueResult :=
  order.filterMap (fun i => (cue_list[i]?).map (process_cue pipeline))

/-- The shape of `final_item['items']` (lines 149–152 of main.py): the bare
first result dict when `n_item == 1`, otherwise the list of results. -/
inductive ItemsField where
  | single (r : CueResult)
  | list (rs : List CueResult)
deriving DecidableEq, Repr

/-- `final_item['items'] = results[0] if n_item == 1 else results`;
`results[0]` raises IndexError on an empty list, modelled by `none`. -/
def itemsField (n_item : Nat) (results : List CueResult) :
    Option ItemsField :=
  if n_item = 1 then results.head?.map ItemsField.single
  else some (.list results)

/-! ## The per-call cue semaphore (line 92 of main.py) -/

/-- One admission-relevant event of a cue pipeline belonging to the outer
(trait, item) call `task`: entering (`start`) or leaving (`finish`) the
`async with sem` block of `process_cue`. -/
inductive SemEv where
  | start (task : Nat)
  | finish (task : Nat)
deriving DecidableEq, Repr

def SemEv.taskOf : SemEv → Nat
  | .start t => t
  | .finish t => t

/-- `sem = asyncio.Semaphore(self.max_concurrency)` is created inside each
`_generate_items` call, so admitting a cue start consults only the
in-flight count of that same outer call.  `counts t` is the number of cue
pipelines of outer call `t` currently inside their semaphore; an event the
per-call semaphores would block is `none`. -/
def semStep (maxC : Nat) (counts : Nat → Nat) : SemEv → Option (Nat → Nat)
  | .start t =>
    if counts t < maxC then some (Function.update counts t (counts t + 1))
    else none
  | .finish t =>
    if 0 < counts t then some (Function.update counts t (counts t - 1))
    else none

/-- Runs a whole event trace; `some` exactly when every event is admissible
under the per-call semaphores. -/
def semRun (maxC : Nat) (counts : Nat → Nat) :
    List SemEv → Option (Nat → Nat)
  | [] => some counts
  | e :: rest =>
    match semStep maxC counts e with
    | some c => semRun maxC c rest
    | none => none

/-! ## Batch scheduler (`SJTRunner._cook_async`, src/run.py) -/

/-- The RuntimeError raised by `process_trait_item`: the original exception
`cause` wrapped with the failing trait and item index ("Failed to generate
items for trait {trait} at index {index}"). -/
structure BatchError where
  trait : String
  index : Nat
  cause : String
deriving DecidableEq, Repr

/-- The task list built at lines 250–254 of run.py: one (trait, item_index)
pair per source item, traits in input order, indices from `enumerate`.
The `items` dict is modelled as a total function on trait names. -/
def batchTasks (traits : List String) (items : String → List String) :
    List (String × Nat) :=
  traits.flatMap (fun t => (List.range (items t).length).map (fun i => (t, i)))

/-- The `as_completed` consumption loop of `_cook_async` (lines 260–268):
tasks settle in completion order; each success is written to its
index-addressed cell (accumulated here as (trait, index, result) triples)
and the first failure aborts the loop with the wrapped error.  `outcome t i`
is what `generator._generate_items` returns or raises for that task. -/
def cookLoop {α : Type} (outcome : String → Nat → Except String α) :
    List (String × Nat) → List (String × Nat × α) →
      Except BatchError (List (String × Nat × α))
  | [], acc => .ok acc
  | (t, i) :: rest, acc =>
    match outcome t i with
    | .ok r => cookLoop outcome rest (acc ++ [(t, i, r)])
    | .error e => .error ⟨t, i, e⟩

/-- Outcome of one `_cook_async` call: either the per-trait result lists, or
the wrapped error of the first failed task together with the list of tasks
that received a cancellation request (the except branch cancels every task
in `tasks`). -/
inductive BatchOutcome (α : Type) where
  | ok (res : List (String × List α))
  | error (err : BatchError) (cancelled : List (String × Nat))
deriving DecidableEq, Repr

/-- Reads the index-addressed cell (t, i) of `all_items` from the
accumulated completion triples. -/
def cellLookup {α : Type} (acc : List (String × Nat × α)) (t : String)
    (i : Nat) : Option α :=
  (acc.find? (fun x => x.1 == t && x.2.1 == i)).map (fun x => x.2.2)

/-- `SJTRunner._cook_async` (lines 201–273): empty `traits` returns `{}`;
zero total source items returns `{trait: []}` without scheduling; otherwise
the completion loop runs.  On success each trait maps to its index-ordered
cell values with `None` cells dropped
(`[item for item in results if item is not None]`); on the first failure
every task is cancelled, the cancellations are awaited
(`gather(..., return_exceptions=True)`) and the wrapped error is re-raised,
so no result mapping is produced. -/
def cook_async {α : Type} (outcome : String → Nat → Except String α)
    (traits : List String) (items : String → List String)
    (order : List (String × Nat)) : BatchOutcome α :=
  if traits = [] then .ok []
  else if (traits.map (fun t => (items t).length)).sum = 0 then
    .ok (traits.map (fun t => (t, [])))
  else
    match cookLoop outcome order [] with
    | .ok acc =>
      .ok (traits.map (fun t =>
        (t, (List.range (items t).length).filterMap (cellLookup acc t))))
    | .error e => .error e (batchTasks traits items)

/-! ## Result flattening (`SJTRunner.save_result`, src/run.py) -/

/-- A record produced by `_generate_items` as stored in the batch result;
only the fields `save_result` touches are modelled. -/
structure FinalItem where
  source : String
  n_item : Nat
  cues : List String
  items : ItemsField
deriving DecidableEq, Repr

/-- One element yielded by Python's `for s in data['items']`: iterating the
list shape yields the cue-result records; iterating the single-dict shape
(the `n_item == 1` case) yields the dict's keys, i.e. strings. -/
inductive FlatEntry where
  | res (r : CueResult)
  | key (s : String)
deriving DecidableEq, Repr

/-- Insertion-ordered keys of the two cue-result dict shapes. -/
def cueResultKeys : CueResult → List String
  | .success _ _ => ["situation", "options"]
  | .failure _ _ => ["error", "cue"]

/-- Python iteration over `data['items']`. -/
def itemsElems : ItemsField → List FlatEntry
  | .list rs => rs.map FlatEntry.res
  | .single r => (cueResultKeys r).map FlatEntry.key

/-- Whether a flattened value is a success (`{situation, options}`)
record. -/
def isSuccessEntry : FlatEntry → Bool
  | .res (.success _ _) => true
  | _ => false

/-- The per-trait comprehension of `save_result`: enumerate the flattened
entries from 1 and key each entry by its rank.  The dict keys `str(i)` are
modelled by the integers `i` themselves (`str` is injective on them and
dict insertion order is enumeration order). -/
def flattenTrait (res : List FinalItem) : List (Nat × FlatEntry) :=
  List.enumFrom 1 (res.flatMap (fun d => itemsElems d.items))

/-- The two artifacts written by `save_result`: the detailed JSON is the
nested `all_items` unchanged; the flat JSON applies `flattenTrait` per
trait. -/
def save_result_artifacts (all_items : List (String × List FinalItem)) :
    List (String × List FinalItem) × List (String × List (Nat × FlatEntry)) :=
  (all_items, all_items.map (fun p => (p.1, flattenTrait p.2)))

theorem quality_check_node_iter (serialize : OptionRec → String)
    (s : PSJTState) : (quality_check_node serialize s).iter = s.iter := rfl

theorem behavior_adaptation_node_iter (opts : List OptionRec)
    (s : PSJTState) : (behavior_adaptation_node opts s).iter = s.iter := rfl

theorem revise_node_iter (out : ReviseOut) (s : PSJTState) :
    (revise_node out s).iter = s.iter + 1 := rfl

theorem should_revise_iter_lt (s : PSJTState)
    (h : should_revise s = "revise") : s.iter < 2 := by
  by_contra hc
  push_neg at hc
  unfold should_revise at h
  rw [if_pos hc] at h
  exact absurd h (by decide)

theorem quality_check_node_cues (serialize : OptionRec → String)
    (s : PSJTState) :
    (quality_check_node serialize s).situation_cues = s.situation_cues := rfl

theorem quality_check_node_quality (serialize : OptionRec → String)
    (s : PSJTState) :
    (quality_check_node serialize s).quality =
      some ⟨distinct_ratio s.options, level_coverage s.options,
        avg_cue_hits serialize s.situation_cues s.options,
        quality_pass serialize s.situation_cues s.options⟩ := rfl

theorem behavior_adaptation_node_cues (opts : List OptionRec)
    (s : PSJTState) :
    (behavior_adaptation_node opts s).situation_cues = s.situation_cues := rfl

theorem behavior_adaptation_node_options (opts : List OptionRec)
    (s : PSJTState) : (behavior_adaptation_node opts s).options = opts := rfl

theorem revise_node_cues (out : ReviseOut) (s : PSJTState) :
    (revise_node out s).situation_cues = s.situation_cues := rfl

/-- Invariant of the refinement loop: the final iteration counter is the
starting counter plus the number of revise runs, and it never exceeds
`max 2 s.iter` (so never exceeds 2 when started at or below 2). -/
theorem runRefine_iter_spec (serialize : OptionRec → String)
    (baOut : Nat → List OptionRec) (revOut : Nat → ReviseOut) :
    ∀ n k (s : PSJTState), 2 - s.iter ≤ n →
      (runRefine serialize baOut revOut k s).1.iter =
          s.iter + (runRefine serialize baOut revOut k s).2 ∧
        s.iter + (runRefine serialize baOut revOut k s).2 ≤ max 2 s.iter := by
  intro n
  induction n with
  | zero =>
    intro k s hn
    have hge : 2 ≤ s.iter := by omega
    have hstop : ¬ should_revise
        (quality_check_node serialize (behavior_adaptation_node (baOut k) s)) =
        "revise" := by
      intro h
      have := should_revise_iter_lt _ h
      simp only [quality_check_node_iter, behavior_adaptation_node_iter] at this
      omega
    unfold runRefine
    rw [dif_neg hstop]
    simp only [quality_check_node_iter, behavior_adaptation_node_iter]
    omega
  | succ n ih =>
    intro k s hn
    by_cases h : should_revise
        (quality_check_node serialize (behavior_adaptation_node (baOut k) s)) =
        "revise"
    · have hlt := should_revise_iter_lt _ h
      simp only [quality_check_node_iter, behavior_adaptation_node_iter] at hlt
      have hiter : (revise_node (revOut k)
          (quality_check_node serialize
            (behavior_adaptation_node (baOut k) s))).iter = s.iter + 1 := rfl
      have hrec := ih (k + 1) (revise_node (revOut k)
        (quality_check_node serialize (behavior_adaptation_node (baOut k) s)))
        (by rw [hiter]; omega)
      rw [hiter] at hrec
      unfold runRefine
      rw [dif_pos h]
      simp only
      omega
    · unfold runRefine
      rw [dif_neg h]
      simp only [quality_check_node_iter, behavior_adaptation_node_iter]
      omega

/-- When the quality gate never passes for the session's cue set, the loop
runs revise exactly `2 - s.iter` times and the final stored quality does
not pass. -/
theorem runRefine_neverpass (serialize : OptionRec → String)
    (baOut : Nat → List OptionRec) (revOut : Nat → ReviseOut)
    (cues : List String)
    (hfail : ∀ opts, quality_pass serialize cues opts = false) :
    ∀ n k (s : PSJTState), s.situation_cues = cues → 2 - s.iter ≤ n →
      (runRefine serialize baOut revOut k s).2 = 2 - s.iter ∧
        (((runRefine serialize baOut revOut k s).1.quality.map
          QualityM.pass).getD true = false) := by
  intro n
  induction n with
  | zero =>
    intro k s hcues hn
    have hge : 2 ≤ s.iter := by omega
    have hstop : ¬ should_revise
        (quality_check_node serialize (behavior_adaptation_node (baOut k) s)) =
        "revise" := by
      intro h
      have := should_revise_iter_lt _ h
      simp only [quality_check_node_iter, behavior_adaptation_node_iter] at this
      omega
    unfold runRefine
    rw [dif_neg hstop]
    constructor
    · simp only
      omega
    · simp [quality_check_node_quality, behavior_adaptation_node_cues,
        behavior_adaptation_node_options, hcues, hfail]
  | succ n ih =>
    intro k s hcues hn
    by_cases h : should_revise
        (quality_check_node serialize (behavior_adaptation_node (baOut k) s)) =
        "revise"
    · have hlt := should_revise_iter_lt _ h
      simp only [quality_check_node_iter, behavior_adaptation_node_iter] at hlt
      have hiter : (revise_node (revOut k)
          (quality_check_node serialize
            (behavior_adaptation_node (baOut k) s))).iter = s.iter + 1 := rfl
      have hcues2 : (revise_node (revOut k)
          (quality_check_node serialize
            (behavior_adaptation_node (baOut k) s))).situation_cues = cues := by
        simp only [revise_node_cues, quality_check_node_cues,
          behavior_adaptation_node_cues, hcues]
      have hrec := ih (k + 1) (revise_node (revOut k)
        (quality_check_node serialize (behavior_adaptation_node (baOut k) s)))
        hcues2 (by rw [hiter]; omega)
      rw [hiter] at hrec
      unfold runRefine
      rw [dif_pos h]
      simp only
      constructor
      · omega
      · exact hrec.2
    · unfold runRefine
      rw [dif_neg h]
      constructor
      · have : ¬ (quality_check_node serialize
            (behavior_adaptation_node (baOut k) s)).iter < 2 := by
          intro hlt
          apply h
          unfold should_revise
          rw [if_neg (by omega)]
          simp [quality_check_node_quality, behavior_adaptation_node_cues,
            behavior_adaptation_node_options, hcues, hfail]
        simp only [quality_check_node_iter, behavior_adaptation_node_iter] at this
        simp only
        omega
      · simp [quality_check_node_quality, behavior_adaptation_node_cues,
          behavior_adaptation_node_options, hcues, hfail]

/-- With an empty cue set the average cue hit count is 0, so the gate can
never pass (used to instantiate never-passing sessions). -/
theorem quality_pass_no_cues (serialize : OptionRec → String)
    (opts : List OptionRec) : quality_pass serialize [] opts = false := by
  simp [quality_pass, avg_cue_hits, cueHitsOf]

/-- C5: starting from iteration count 0, every revise run adds exactly 1 to
the counter (final counter = number of revise runs), the counter never
exceeds 2, and when the gate never passes the loop still terminates after
exactly 2 revise runs with a packaged record whose quality does not pass,
rather than an error. -/
theorem refinement_loop_bounded (serialize : OptionRec → String)
    (baOut : Nat → List OptionRec) (revOut : Nat → ReviseOut) (s : PSJTState)
    (h0 : s.iter = 0)
    (hfail : ∀ opts, quality_pass serialize s.situation_cues opts = false) :
    (runRefine serialize baOut revOut 0 s).1.iter =
        s.iter + (runRefine serialize baOut revOut 0 s).2 ∧
      (runRefine serialize baOut revOut 0 s).1.iter ≤ 2 ∧
      (runRefine serialize baOut revOut 0 s).2 = 2 ∧
      (pack_item (runRefine serialize baOut revOut 0 s).1).iterations = 2 ∧
      ((pack_item (runRefine serialize baOut revOut 0 s).1).quality.map
        QualityM.pass).getD true = false := by
  have hiter := runRefine_iter_spec serialize baOut revOut 2 0 s (by omega)
  have hnp := runRefine_neverpass serialize baOut revOut s.situation_cues hfail
    2 0 s rfl (by omega)
  have hc : (runRefine serialize baOut revOut 0 s).2 = 2 := by
    rw [hnp.1, h0]
  refine ⟨hiter.1, ?_, hc, ?_, hnp.2⟩
  · rw [hiter.1, h0, hc]
  · show (runRefine serialize baOut revOut 0 s).1.iter = 2
    rw [hiter.1, h0, hc]

theorem refinement_loop_bounded_witness :
    (runRefine (fun _ => "") (fun _ => []) (fun _ => ⟨none, none⟩) 0
        ⟨[], "x", [], none, "", 0⟩).1.iter =
        (⟨[], "x", [], none, "", 0⟩ : PSJTState).iter +
          (runRefine (fun _ => "") (fun _ => []) (fun _ => ⟨none, none⟩) 0
            ⟨[], "x", [], none, "", 0⟩).2 ∧
      (runRefine (fun _ => "") (fun _ => []) (fun _ => ⟨none, none⟩) 0
        ⟨[], "x", [], none, "", 0⟩).1.iter ≤ 2 ∧
      (runRefine (fun _ => "") (fun _ => []) (fun _ => ⟨none, none⟩) 0
        ⟨[], "x", [], none, "", 0⟩).2 = 2 ∧
      (pack_item (runRefine (fun _ => "") (fun _ => []) (fun _ => ⟨none, none⟩)
        0 ⟨[], "x", [], none, "", 0⟩).1).iterations = 2 ∧
      ((pack_item (runRefine (fun _ => "") (fun _ => []) (fun _ => ⟨none, none⟩)
        0 ⟨[], "x", [], none, "", 0⟩).1).quality.map
          QualityM.pass).getD true = false :=
  refinement_loop_bounded (fun _ => "") (fun _ => []) (fun _ => ⟨none, none⟩)
    ⟨[], "x", [], none, "", 0⟩ rfl
    (fun opts => quality_pass_no_cues (fun _ => "") opts)

/-- C6: the code's `_distinct_ratio` equals the spec formula on every
options list, is 0 on the empty list, and evaluates to 1/3 on three options
with identical (action, rationale) texts. -/
theorem distinct_ratio_matches_spec (options : List OptionRec)
    (o₁ o₂ o₃ : OptionRec) (h12 : optionText o₁ = optionText o₂)
    (h13 : optionText o₁ = optionText o₃) :
    distinct_ratio options = distinct_ratio_spec options ∧
      distinct_ratio [] = 0 ∧
      distinct_ratio [o₁, o₂, o₃] = 1/3 := by
  refine ⟨?_, by simp [distinct_ratio], ?_⟩
  · unfold distinct_ratio distinct_ratio_spec
    rcases options with _ | ⟨o, os⟩
    · simp
    · have hmax : max 1 ((o :: os).map optionText).length =
          ((o :: os) : List OptionRec).length := by
        simp [Nat.max_eq_right]
      simp only [hmax]
      simp
  · unfold distinct_ratio
    rw [if_neg (by simp)]
    have hmap : ([o₁, o₂, o₃].map optionText) =
        [optionText o₁, optionText o₁, optionText o₁] := by
      simp [← h12, ← h13]
    rw [hmap]
    have hded : ([optionText o₁, optionText o₁, optionText o₁] :
        List (Option String × Option String)).dedup = [optionText o₁] := by
      simp [List.dedup_cons_of_mem]
    simp only [hded, List.length_cons, List.length_nil]
    norm_num

theorem distinct_ratio_matches_spec_witness :
    distinct_ratio [⟨some "a", some "r", some "high"⟩] =
        distinct_ratio_spec [⟨some "a", some "r", some "high"⟩] ∧
      distinct_ratio [] = 0 ∧
      distinct_ratio [⟨some "a", some "r", some "high"⟩,
        ⟨some "a", some "r", some "mid"⟩,
        ⟨some "a", some "r", some "low"⟩] = 1/3 :=
  distinct_ratio_matches_spec [⟨some "a", some "r", some "high"⟩]
    ⟨some "a", some "r", some "high"⟩ ⟨some "a", some "r", some "mid"⟩
    ⟨some "a", some "r", some "low"⟩ rfl rfl

/-- C7: the stored pass flag of the quality gate is exactly the conjunction
of the three fixed-threshold comparisons, so meeting all three thresholds
gives pass and failing any single one denies it. -/
theorem quality_gate_pass_iff (serialize : OptionRec → String)
    (s : PSJTState) :
    (((quality_check_node serialize s).quality.map QualityM.pass).getD false)
        = true ↔
      (distinct_ratio s.options ≥ 9/10 ∧ level_coverage s.options ≥ 67/100 ∧
        avg_cue_hits serialize s.situation_cues s.options ≥ 1) := by
  simp [quality_check_node_quality, quality_pass, and_assoc]

/-- Reading every position of `l` through `getElem?` in input order recovers
the map. -/
theorem filterMap_getElem_range {α β : Type} (l : List α) (g : α → β) :
    (List.range l.length).filterMap (fun i => (l[i]?).map g) = l.map g := by
  induction l with
  | nil => simp
  | cons a t ih =>
    rw [List.length_cons, List.range_succ_eq_map, List.filterMap_cons]
    simp only [List.getElem?_cons_zero, Option.map_some']
    rw [List.filterMap_map]
    have hcomp : ((fun i => ((a :: t)[i]?).map g) ∘ Nat.succ) =
        fun i => (t[i]?).map g := by
      funext i
      simp
    rw [hcomp, ih, List.map_cons]

/-- Whatever completion order the event loop produces (any permutation of
the task indices), the assembled results list is a permutation of the
per-cue results. -/
theorem assembleResults_perm
    (pipeline : String → Except String (String × List OptionRec))
    (cue_list : List String) (order : List Nat)
    (hperm : order.Perm (List.range cue_list.length)) :
    (assembleResults pipeline cue_list order).Perm
      (cue_list.map (process_cue pipeline)) := by
  unfold assembleResults
  have h := hperm.filterMap (fun i => (cue_list[i]?).map (process_cue pipeline))
  rwa [filterMap_getElem_range cue_list (process_cue pipeline)] at h

/-- C1 counterexample: with three cues completing in the order c3, c1, c2,
the assembled list is not the input-ordered result list. -/
theorem cue_fanout_order_counterexample :
    (([2, 0, 1] : List Nat).Perm (List.range 3)) ∧
      assembleResults (fun c => .ok (c, [])) ["c1", "c2", "c3"] [2, 0, 1] ≠
        (["c1", "c2", "c3"].map (process_cue (fun c => .ok (c, [])))) := by
  exact ⟨by decide, by decide⟩

/-- C1 amended: `_generate_items` appends cue results in completion order,
so the assembled list is a permutation (same multiset, same length) of the
input-ordered per-cue results, but not the input order itself. -/
theorem cue_fanout_completion_order
    (pipeline : String → Except String (String × List OptionRec))
    (cue_list : List String) (order : List Nat)
    (hperm : order.Perm (List.range cue_list.length)) :
    (assembleResults pipeline cue_list order).Perm
        (cue_list.map (process_cue pipeline)) ∧
      (assembleResults pipeline cue_list order).length = cue_list.length := by
  have h := assembleResults_perm pipeline cue_list order hperm
  exact ⟨h, h.length_eq.trans (List.length_map _ _)⟩

theorem cue_fanout_completion_order_witness :
    (assembleResults (fun c => .ok (c, [])) ["c1", "c2", "c3"]
        [2, 0, 1]).Perm
        (["c1", "c2", "c3"].map (process_cue (fun c => .ok (c, [])))) ∧
      (assembleResults (fun c => .ok (c, [])) ["c1", "c2", "c3"]
        [2, 0, 1]).length = (["c1", "c2", "c3"] : List String).length :=
  cue_fanout_completion_order (fun c => .ok (c, [])) ["c1", "c2", "c3"]
    [2, 0, 1] (by decide)

/-- C4: a cue result is the success record exactly when the pipeline
succeeded and the tagged error record exactly when it raised; every
`CueResult` is exactly one of the two; and the per-item call returns one
result per cue — siblings of a failed cue still appear (nothing is
cancelled and nothing propagates). -/
theorem cue_failure_isolation
    (pipeline : String → Except String (String × List OptionRec))
    (cue_list : List String) (order : List Nat)
    (hperm : order.Perm (List.range cue_list.length)) :
    (∀ cue s o, pipeline cue = .ok (s, o) →
        process_cue pipeline cue = .success s o) ∧
      (∀ cue e, pipeline cue = .error e →
        process_cue pipeline cue = .failure e cue) ∧
      (∀ r : CueResult,
        ((∃ s o, r = .success s o) ∨ (∃ e c, r = .failure e c)) ∧
          ¬ ((∃ s o, r = .success s o) ∧ (∃ e c, r = .failure e c))) ∧
      (assembleResults pipeline cue_list order).length = cue_list.length ∧
      (∀ cue ∈ cue_list,
        process_cue pipeline cue ∈ assembleResults pipeline cue_list order) := by
  have hp := assembleResults_perm pipeline cue_list order hperm
  refine ⟨?_, ?_, ?_, ?_, ?_⟩
  · intro cue s o h
    simp [process_cue, h]
  · intro cue e h
    simp [process_cue, h]
  · intro r
    constructor
    · cases r with
      | success s o => exact .inl ⟨s, o, rfl⟩
      | failure e c => exact .inr ⟨e, c, rfl⟩
    · rintro ⟨⟨s, o, hs⟩, ⟨e, c, hf⟩⟩
      rw [hs] at hf
      cases hf
  · exact hp.length_eq.trans (List.length_map _ _)
  · intro cue hcue
    exact hp.mem_iff.mpr (List.mem_map_of_mem _ hcue)

theorem cue_failure_isolation_witness :
    (∀ cue s o,
        (fun c => if c = "c2" then (.error "boom" :
            Except String (String × List OptionRec)) else .ok (c, [])) cue =
          .ok (s, o) →
        process_cue (fun c => if c = "c2" then .error "boom" else .ok (c, []))
          cue = .success s o) ∧
      (∀ cue e,
        (fun c => if c = "c2" then (.error "boom" :
            Except String (String × List OptionRec)) else .ok (c, [])) cue =
          .error e →
        process_cue (fun c => if c = "c2" then .error "boom" else .ok (c, []))
          cue = .failure e cue) ∧
      (∀ r : CueResult,
        ((∃ s o, r = .success s o) ∨ (∃ e c, r = .failure e c)) ∧
          ¬ ((∃ s o, r = .success s o) ∧ (∃ e c, r = .failure e c))) ∧
      (assembleResults
          (fun c => if c = "c2" then .error "boom" else .ok (c, []))
          ["c1", "c2", "c3"] [1, 2, 0]).length =
        (["c1", "c2", "c3"] : List String).length ∧
      (∀ cue ∈ (["c1", "c2", "c3"] : List String),
        process_cue (fun c => if c = "c2" then .error "boom" else .ok (c, []))
            cue ∈
          assembleResults
            (fun c => if c = "c2" then .error "boom" else .ok (c, []))
            ["c1", "c2", "c3"] [1, 2, 0]) :=
  cue_failure_isolation
    (fun c => if c = "c2" then .error "boom" else .ok (c, []))
    ["c1", "c2", "c3"] [1, 2, 0] (by decide)

/-- C10: with at least one result, `n_item = 1` stores the bare first result
record in `final_item['items']` while any other `n_item` stores the list of
results, so the field's shape depends on `n_item`. -/
theorem items_field_shape (n_item : Nat) (r : CueResult)
    (rest results : List CueResult) (hres : results = r :: rest)
    (hn : n_item ≠ 1) :
    itemsField 1 results = some (.single r) ∧
      itemsField n_item results = some (.list results) := by
  subst hres
  constructor
  · simp [itemsField]
  · simp [itemsField, hn]

theorem items_field_shape_witness :
    itemsField 1 [CueResult.success "s" []] =
        some (.single (CueResult.success "s" [])) ∧
      itemsField 3 [CueResult.success "s" []] =
        some (.list [CueResult.success "s" []]) :=
  items_field_shape 3 (CueResult.success "s" []) [] [CueResult.success "s" []]
    rfl (by decide)

/-- `semRun` over a concatenation is sequential composition. -/
theorem semRun_append (maxC : Nat) (p q : List SemEv) :
    ∀ counts, semRun maxC counts (p ++ q) =
      (semRun maxC counts p).bind (fun c => semRun maxC c q) := by
  induction p with
  | nil => intro counts; simp [semRun]
  | cons e rest ih =>
    intro counts
    simp only [List.cons_append, semRun]
    cases semStep maxC counts e with
    | none => simp
    | some c => simp [ih c]

/-- Per-call admission keeps every outer call's in-flight count at or below
`maxC`. -/
theorem semRun_bound (maxC : Nat) :
    ∀ (evs : List SemEv) (counts counts' : Nat → Nat),
      (∀ t, counts t ≤ maxC) → semRun maxC counts evs = some counts' →
      ∀ t, counts' t ≤ maxC := by
  intro evs
  induction evs with
  | nil =>
    intro counts counts' h hrun t
    simp only [semRun, Option.some.injEq] at hrun
    subst hrun
    exact h t
  | cons e rest ih =>
    intro counts counts' h hrun t
    simp only [semRun] at hrun
    cases hstep : semStep maxC counts e with
    | none => rw [hstep] at hrun; cases hrun
    | some c =>
      rw [hstep] at hrun
      refine ih c counts' ?_ hrun t
      intro u
      cases e with
      | start t0 =>
        simp only [semStep] at hstep
        by_cases hlt : counts t0 < maxC
        · rw [if_pos hlt] at hstep
          injection hstep with hc
          subst hc
          by_cases hu : u = t0
          · subst hu
            rw [Function.update_same]
            omega
          · rw [Function.update_noteq hu]
            exact h u
        · rw [if_neg hlt] at hstep
          cases hstep
      | finish t0 =>
        simp only [semStep] at hstep
        by_cases hpos : 0 < counts t0
        · rw [if_pos hpos] at hstep
          injection hstep with hc
          subst hc
          by_cases hu : u = t0
          · subst hu
            rw [Function.update_same]
            exact le_trans (Nat.sub_le _ _) (h _)
          · rw [Function.update_noteq hu]
            exact h u
        · rw [if_neg hpos] at hstep
          cases hstep

/-- C2 counterexample: with `max_concurrency = 1`, the trace in which outer
call 0 and outer call 1 each start one cue pipeline is admitted by the
per-call semaphores, yet it puts 2 cue pipelines of the same generator
instance in flight at once, exceeding the claimed instance-wide bound 1. -/
theorem cue_semaphore_counterexample :
    ((semRun 1 (fun _ => 0) [.start 0, .start 1]).map
        (fun c => c 0 + c 1)) = some 2 ∧ ¬ (2 ≤ 1) := by
  constructor
  · decide
  · decide

/-- C2 amended: the semaphore created per `_generate_items` call bounds each
outer call's in-flight cue pipelines by `max_concurrency` at every point of
an admissible trace, so with `K` concurrent outer calls the instance-wide
total is only bounded by `K * max_concurrency`, not by `max_concurrency`. -/
theorem cue_semaphore_per_call (maxC K : Nat) (evs p q : List SemEv)
    (hsplit : evs = p ++ q)
    (hadm : (semRun maxC (fun _ => 0) evs).isSome = true) :
    ∃ c, semRun maxC (fun _ => 0) p = some c ∧ (∀ t, c t ≤ maxC) ∧
      ∑ t ∈ Finset.range K, c t ≤ K * maxC := by
  subst hsplit
  rw [semRun_append] at hadm
  obtain ⟨c, hc⟩ : ∃ c, semRun maxC (fun _ => 0) p = some c := by
    cases h : semRun maxC (fun _ => 0) p with
    | none => rw [h] at hadm; simp at hadm
    | some c => exact ⟨c, rfl⟩
  have hb := semRun_bound maxC p (fun _ => 0) c (fun _ => Nat.zero_le _) hc
  refine ⟨c, hc, hb, ?_⟩
  calc ∑ t ∈ Finset.range K, c t ≤ ∑ _t ∈ Finset.range K, maxC :=
        Finset.sum_le_sum (fun i _ => hb i)
    _ = K * maxC := by
        rw [Finset.sum_const, Finset.card_range, smul_eq_mul]

theorem cue_semaphore_per_call_witness :
    ∃ c, semRun 1 (fun _ => 0) [SemEv.start 0] = some c ∧
      (∀ t, c t ≤ 1) ∧ ∑ t ∈ Finset.range 2, c t ≤ 2 * 1 :=
  cue_semaphore_per_call 1 2 [SemEv.start 0, SemEv.start 1] [SemEv.start 0]
    [SemEv.start 1] rfl (by decide)

/-- If some task in the remaining completion order fails, the consumption
loop ends in a wrapped error naming a failing task of that order. -/
theorem cookLoop_error {α : Type} (outcome : String → Nat → Except String α) :
    ∀ (order : List (String × Nat)) (acc : List (String × Nat × α))
      (t : String) (i : Nat) (e : String),
      (t, i) ∈ order → outcome t i = .error e →
      ∃ t' i' e', cookLoop outcome order acc = .error ⟨t', i', e'⟩ ∧
        (t', i') ∈ order ∧ outcome t' i' = .error e' := by
  intro order
  induction order with
  | nil =>
    intro acc t i e hmem
    cases hmem
  | cons hd rest ih =>
    rcases hd with ⟨t0, i0⟩
    intro acc t i e hmem herr
    cases hout : outcome t0 i0 with
    | ok r =>
      rcases List.mem_cons.mp hmem with heq | hmem'
      · exfalso
        rw [show t = t0 from congrArg Prod.fst heq,
          show i = i0 from congrArg Prod.snd heq, hout] at herr
        cases herr
      · obtain ⟨t', i', e', h1, h2, h3⟩ :=
          ih (acc ++ [(t0, i0, r)]) t i e hmem' herr
        refine ⟨t', i', e', ?_, List.mem_cons_of_mem _ h2, h3⟩
        simpa [cookLoop, hout] using h1
    | error e0 =>
      exact ⟨t0, i0, e0, by simp [cookLoop, hout], List.mem_cons_self _ _,
        hout⟩

/-- The task list's length is the total source-item count. -/
theorem batchTasks_length (traits : List String)
    (items : String → List String) :
    (batchTasks traits items).length =
      (traits.map (fun t => (items t).length)).sum := by
  simp [batchTasks, List.length_flatMap, Function.comp_def]

/-- C3: if any scheduled (trait, item) task raises, `_cook_async` raises a
RuntimeError wrapping the trait and index of a genuinely failing scheduled
task, after requesting cancellation of every task of the batch; no result
mapping is returned on this path. -/
theorem batch_fail_fast {α : Type} (outcome : String → Nat → Except String α)
    (traits : List String) (items : String → List String)
    (order : List (String × Nat)) (t : String) (i : Nat) (e : String)
    (hperm : order.Perm (batchTasks traits items))
    (hmem : (t, i) ∈ batchTasks traits items)
    (herr : outcome t i = .error e) :
    ∃ t' i' e', cook_async outcome traits items order =
        .error ⟨t', i', e'⟩ (batchTasks traits items) ∧
      (t', i') ∈ batchTasks traits items ∧ outcome t' i' = .error e' := by
  have htr : traits ≠ [] := by
    intro hnil
    rw [hnil] at hmem
    simp [batchTasks] at hmem
  have htot : (traits.map (fun u => (items u).length)).sum ≠ 0 := by
    intro h0
    have : (batchTasks traits items).length = 0 := by
      rw [batchTasks_length]
      exact h0
    rw [List.length_eq_zero] at this
    rw [this] at hmem
    cases hmem
  have hmemo : (t, i) ∈ order := hperm.mem_iff.mpr hmem
  obtain ⟨t', i', e', h1, h2, h3⟩ := cookLoop_error outcome order [] t i e
    hmemo herr
  refine ⟨t', i', e', ?_, hperm.subset h2, h3⟩
  unfold cook_async
  rw [if_neg htr, if_neg htot, h1]

theorem batch_fail_fast_witness :
    ∃ t' i' e',
      cook_async
          (fun t i => if t = "B" then (.error "boom" : Except String Nat)
            else .ok i)
          ["A", "B"] (fun _ => ["x"]) [("A", 0), ("B", 0)] =
        .error ⟨t', i', e'⟩
          (batchTasks ["A", "B"] (fun _ => ["x"])) ∧
        (t', i') ∈ batchTasks ["A", "B"] (fun _ => ["x"]) ∧
        (fun t i => if t = "B" then (.error "boom" : Except String Nat)
          else .ok i) t' i' = .error e' :=
  batch_fail_fast
    (fun t i => if t = "B" then (.error "boom" : Except String Nat)
      else .ok i)
    ["A", "B"] (fun _ => ["x"]) [("A", 0), ("B", 0)] "B" 0 "boom"
    (by decide) (by decide) rfl

/-- C8 counterexample: a batch whose only trait has an empty source-item
list — and likewise a batch with no traits at all — returns an (empty)
result mapping; no ConfigurationError or any other exception is raised. -/
theorem batch_empty_input_counterexample :
    cook_async (fun _ _ => (.error "never" : Except String Nat)) ["t"]
        (fun _ => []) [] = .ok [("t", [])] ∧
      cook_async (fun _ _ => (.error "never" : Except String Nat)) []
        (fun _ => []) [] = .ok [] := by
  exact ⟨by decide, by decide⟩

/-- C8 amended: on an empty workload (no traits, or all per-trait item
lists empty) `_cook_async` returns the empty result mapping
(`{}` resp. `{trait: []}`) before building any task: the outcome is
independent of the generator behaviour and of any completion order, and
nothing is raised. -/
theorem batch_empty_input_returns_empty {α : Type}
    (outcome outcome' : String → Nat → Except String α)
    (traits : List String) (items : String → List String)
    (order order' : List (String × Nat))
    (hempty : (traits.map (fun t => (items t).length)).sum = 0) :
    cook_async outcome traits items order =
        .ok (traits.map (fun t => (t, []))) ∧
      cook_async outcome traits items order =
        cook_async outcome' traits items order' := by
  by_cases htr : traits = []
  · subst htr
    exact ⟨rfl, rfl⟩
  · constructor
    · unfold cook_async
      rw [if_neg htr, if_pos hempty]
    · unfold cook_async
      rw [if_neg htr, if_pos hempty, if_neg htr, if_pos hempty]

theorem batch_empty_input_returns_empty_witness :
    cook_async (fun _ _ => (.error "never" : Except String Nat)) ["t"]
        (fun _ => []) [] = .ok (["t"].map (fun t => (t, []))) ∧
      cook_async (fun _ _ => (.error "never" : Except String Nat)) ["t"]
          (fun _ => []) [] =
        cook_async (fun _ i => (.ok i : Except String Nat)) ["t"]
          (fun _ => []) [("t", 0)] :=
  batch_empty_input_returns_empty
    (fun _ _ => (.error "never" : Except String Nat))
    (fun _ i => (.ok i : Except String Nat)) ["t"] (fun _ => [])
    [] [("t", 0)] (by decide)

/-- C9 counterexample: when a cue pipeline failed, the flattened per-trait
mapping carries that cue's `{error, cue}` record at its index — not a
`{situation, options}` record as the claim states for every batch result. -/
theorem flatten_error_record_counterexample :
    save_result_artifacts [("t", [⟨"src", 2, ["c1", "c2"],
        .list [.success "s" [], .failure "boom" "c2"]⟩])] =
      ([("t", [⟨"src", 2, ["c1", "c2"],
          .list [.success "s" [], .failure "boom" "c2"]⟩])],
        [("t", [(1, .res (.success "s" [])),
          (2, .res (.failure "boom" "c2"))])]) ∧
      isSuccessEntry (.res (.failure "boom" "c2")) = false := by
  exact ⟨by decide, rfl⟩

/-- C9 amended: for list-shaped item fields (the `n_item ≠ 1` shape), the
per-trait flat mapping keys are exactly the consecutive integers
1..total with total the number of flattened cue results, each key maps to
the corresponding cue-result record (success or error), and the nested
structure is retained unchanged as the detailed artifact. -/
theorem flatten_indexes_consecutive
    (all_items : List (String × List FinalItem)) (trait : String)
    (res : List FinalItem) (hmem : (trait, res) ∈ all_items)
    (hlist : ∀ d ∈ res, ∃ rs, d.items = ItemsField.list rs) :
    (save_result_artifacts all_items).1 = all_items ∧
      (trait, flattenTrait res) ∈ (save_result_artifacts all_items).2 ∧
      (flattenTrait res).map Prod.fst =
        List.range' 1 (flattenTrait res).length ∧
      (flattenTrait res).length =
        (res.map (fun d => (itemsElems d.items).length)).sum ∧
      (∀ x ∈ (flattenTrait res).map Prod.snd,
        ∃ r : CueResult, x = FlatEntry.res r) := by
  refine ⟨rfl, ?_, ?_, ?_, ?_⟩
  · have : (trait, flattenTrait res) =
        (fun p : String × List FinalItem => (p.1, flattenTrait p.2))
          (trait, res) := rfl
    rw [this]
    exact List.mem_map_of_mem _ hmem
  · have h1 : (flattenTrait res).map Prod.fst =
        List.range' 1 (res.flatMap (fun d => itemsElems d.items)).length := by
      simp [flattenTrait, List.enumFrom_map_fst]
    have h2 : (flattenTrait res).length =
        (res.flatMap (fun d => itemsElems d.items)).length := by
      simp [flattenTrait]
    rw [h1, h2]
  · simp [flattenTrait, List.length_flatMap, Function.comp_def]
  · intro x hx
    have hx2 : x ∈ res.flatMap (fun d => itemsElems d.items) := by
      rw [flattenTrait, List.enumFrom_map_snd] at hx
      exact hx
    obtain ⟨d, hd, hxd⟩ := List.mem_flatMap.mp hx2
    obtain ⟨rs, hrs⟩ := hlist d hd
    rw [hrs] at hxd
    simp only [itemsElems] at hxd
    obtain ⟨r, _, hr⟩ := List.mem_map.mp hxd
    exact ⟨r, hr.symm⟩

theorem flatten_indexes_consecutive_witness :
    (save_result_artifacts [("t", [⟨"src", 2, ["c1", "c2"],
        .list [.success "s" [], .failure "boom" "c2"]⟩])]).1 =
      [("t", [⟨"src", 2, ["c1", "c2"],
        .list [.success "s" [], .failure "boom" "c2"]⟩])] ∧
      ("t", flattenTrait [⟨"src", 2, ["c1", "c2"],
          .list [.success "s" [], .failure "boom" "c2"]⟩]) ∈
        (save_result_artifacts [("t", [⟨"src", 2, ["c1", "c2"],
          .list [.success "s" [], .failure "boom" "c2"]⟩])]).2 ∧
      (flattenTrait [⟨"src", 2, ["c1", "c2"],
          .list [.success "s" [], .failure "boom" "c2"]⟩]).map Prod.fst =
        List.range' 1 (flattenTrait [⟨"src", 2, ["c1", "c2"],
          .list [.success "s" [], .failure "boom" "c2"]⟩]).length ∧
      (flattenTrait [⟨"src", 2, ["c1", "c2"],
          .list [.success "s" [], .failure "boom" "c2"]⟩]).length =
        (([⟨"src", 2, ["c1", "c2"],
          .list [.success "s" [], .failure "boom" "c2"]⟩] :
            List FinalItem).map
          (fun d => (itemsElems d.items).length)).sum ∧
      (∀ x ∈ (flattenTrait [⟨"src", 2, ["c1", "c2"],
          .list [.success "s" [], .failure "boom" "c2"]⟩]).map Prod.snd,
        ∃ r : CueResult, x = FlatEntry.res r) :=
  flatten_indexes_consecutive
    [("t", [⟨"src", 2, ["c1", "c2"],
      .list [.success "s" [], .failure "boom" "c2"]⟩])] "t"
    [⟨"src", 2, ["c1", "c2"],
      .list [.success "s" [], .failure "boom" "c2"]⟩]
    (List.mem_singleton.mpr rfl)
    (fun d hd => ⟨[.success "s" [], .failure "boom" "c2"], by
      rw [List.mem_singleton.mp hd]⟩)
